import Mathlib

/-!
# DiscordBot — shallow embedding of the registry / lifecycle core

Embedding of `src/structures/Client.js` (the bot client: `connect`, `login`,
`handleError`) and of the help command script (`src/unnamed/part_000`:
alias lookup, `handleDescription`, one-command help display), together with
the Commands/Modules registry operations those files call.  The registry
classes themselves (`Modules.js`, `Commands.js`) are not part of the staged
sources, so their operations (`modules.init`, `modules.start`, `regroup`)
are modelled from the specification's words; each such definition says so
in its doc comment.

Effects are made explicit: an asynchronous hook or external call is
represented by its predetermined outcome (`Except Err …`), and a run of the
lifecycle produces the list of observable events in the order the code
awaits them.
-/

namespace DiscordBot

/-- Errors thrown by hooks / external collaborators (opaque payload). -/
abbrev Err := String

/-- Observable steps of the `login` lifecycle, in the order they are awaited. -/
inductive Event where
  | dbConnect
  | modInit (i : Nat)
  | modStart (i : Nat)
  | auth
deriving DecidableEq, Repr

/-- A module as the lifecycle sees it: the predetermined outcomes of its two
asynchronous hooks (`init`, `start`).  `Module.js` itself is not staged; for
the lifecycle claims only the hooks' success or failure matters. -/
structure BotModule where
  initRes : Except Err Unit
  startRes : Except Err Unit

/-- Modelled from the spec: `Modules.js` (the Modules registry) is not under
`src/`.  Per the spec, `init()` "invokes each module's `init` hook strictly in
registration order, awaiting full completion of one before starting the next",
and "any hook failing aborts the whole sequence and propagates the error".
The trace records exactly the hooks that were invoked; `i` is the index of the
first module of the suffix being processed. -/
def modulesInit : List BotModule → Nat → List Event × Except Err Unit
  | [], _ => ([], Except.ok ())
  | m :: rest, i =>
    match m.initRes with
    | Except.error e => ([Event.modInit i], Except.error e)
    | Except.ok _ =>
      (Event.modInit i :: (modulesInit rest (i + 1)).1, (modulesInit rest (i + 1)).2)

/-- Modelled from the spec: `Modules.js` is not under `src/`.  `start()`
invokes each module's `start` hook strictly in registration order with the
same abort-on-first-failure rule as `init()`. -/
def modulesStart : List BotModule → Nat → List Event × Except Err Unit
  | [], _ => ([], Except.ok ())
  | m :: rest, i =>
    match m.startRes with
    | Except.error e => ([Event.modStart i], Except.error e)
    | Except.ok _ =>
      (Event.modStart i :: (modulesStart rest (i + 1)).1, (modulesStart rest (i + 1)).2)

/-- The JS guard `if (!this.dbname) return` of `ClientDiscordBot.connect`:
`dbname` is configured when it is present and not the empty string (the two
falsy possibilities for this option). -/
def dbConfigured : Option String → Bool
  | none => false
  | some s => s != ""

/-- `ClientDiscordBot.connect` (src/structures/Client.js:137-145): returns at
once when no database name is configured; otherwise performs one connection
attempt whose outcome is `dbRes`, rethrowing its error (`.catch(error => {
throw error })`).  The wait for the connection's `open` state and the debug
emit fold into the single attempt's outcome. -/
def connect (dbname : Option String) (dbRes : Except Err Unit) :
    List Event × Except Err Unit :=
  if dbConfigured dbname then ([Event.dbConnect], dbRes) else ([], Except.ok ())

/-- `ClientDiscordBot.login` (src/structures/Client.js:154-160):
`await this.connect()` (rethrowing its error), then `await this.modules.init()`,
then `await this.modules.start()`, then `return super.login(token)`.
`authRes` is the external transport authentication's outcome (the session
token on success); its result is returned to the caller. -/
def login (dbname : Option String) (dbRes : Except Err Unit)
    (ms : List BotModule) (authRes : Except Err String) :
    List Event × Except Err String :=
  match (connect dbname dbRes).2 with
  | Except.error e => ((connect dbname dbRes).1, Except.error e)
  | Except.ok _ =>
    match (modulesInit ms 0).2 with
    | Except.error e =>
      ((connect dbname dbRes).1 ++ (modulesInit ms 0).1, Except.error e)
    | Except.ok _ =>
      match (modulesStart ms 0).2 with
      | Except.error e =>
        ((connect dbname dbRes).1 ++ (modulesInit ms 0).1 ++ (modulesStart ms 0).1,
         Except.error e)
      | Except.ok _ =>
        ((connect dbname dbRes).1 ++ (modulesInit ms 0).1 ++ (modulesStart ms 0).1
           ++ [Event.auth],
         authRes)

/-- `ClientDiscordBot.handleError` (src/structures/Client.js:166-175):
`if (!this.emit) throw error; return this.emit('error', error)`.  `hasEmit`
is whether an emitter is available; emission is represented by the emitted
event name paired with the error. -/
def handleError (hasEmit : Bool) (e : Err) : Except Err (String × Err) :=
  if !hasEmit then Except.error e else Except.ok ("error", e)

/-- The dispatch boundary of the help script (src/unnamed/part_000:24,36):
`message.channel.send(...).catch(error => Bot.handleError(error))` — a failed
outbound send is caught and routed to `handleError`; `none` means the send
succeeded and nothing was emitted. -/
def sendAndCatch (hasEmit : Bool) (sendRes : Except Err Unit) :
    Except Err (Option (String × Err)) :=
  match sendRes with
  | Except.ok _ => Except.ok none
  | Except.error e => (handleError hasEmit e).map some

/-! ## Commands and the help script (src/unnamed/part_000) -/

/-- A command's stored description as the JS dynamic checks of
`handleDescription` classify it: a string (`typeof desc === 'string'`), an
array-like object of strings (`typeof desc === 'object' &&
typeof desc.length !== 'undefined'`), or anything else. -/
inductive Desc where
  | str (s : String)
  | seq (l : List String)
  | other
deriving DecidableEq, Repr

/-- A command descriptor as the help script reads it (`name`, `alias`,
`description`, `group`); the handler function itself is external behaviour
and is not part of the data the claims inspect. -/
structure Command where
  name : String
  «alias» : List String
  description : Desc
  group : String
deriving DecidableEq, Repr

/-- `String(array)` / `Array.prototype.toString`: elements joined with `","`
(used by `desc.map(...).toString()` and `command.alias.toString()`). -/
def joinComma : List String → String
  | [] => ""
  | [x] => x
  | x :: xs => x ++ "," ++ joinComma xs

/-- `.replace(/,/g, '')`: every comma character removed. -/
def removeCommas (s : String) : String :=
  String.mk (s.data.filter (fun c => c != ','))

/-- The placeholder of `handleDescription`'s final branch. -/
def unavailableDesc : String :=
  "La description de cette commande ne peut pas être affichée"

/-- `handleDescription` (src/unnamed/part_000:40-45): an array-like
description becomes `desc.map(d => d + "\n").toString().replace(/,/g, '')`;
a string is returned unchanged; anything else becomes the fixed placeholder. -/
def handleDescription : Desc → String
  | Desc.seq l => removeCommas (joinComma (l.map (fun d => d ++ "\n")))
  | Desc.str s => s
  | Desc.other => unavailableDesc

/-- The per-command alias test of the help lookup
(src/unnamed/part_000:29): `command.alias.find(alias => cmd === alias)`
returns the first alias strictly equal to the token, or nothing. -/
def aliasMatch (c : Command) (tok : String) : Option String :=
  c.«alias».find? (fun a => tok == a)

/-- JS truthiness of `alias.find`'s result: `undefined` and the empty string
are falsy, any other string is truthy. -/
def truthyStr : Option String → Bool
  | none => false
  | some s => s != ""

/-- The help lookup (src/unnamed/part_000:29):
`Bot.commands.find(command => command.alias.find(alias => cmd === alias))` —
the first command of the registry (in registration order) whose alias test is
truthy.  The registry is the ordered collection of registered commands. -/
def findCmd (reg : List Command) (tok : String) : Option Command :=
  reg.find? (fun c => truthyStr (aliasMatch c tok))

/-- One embed field of the help display (src/unnamed/part_000:32-35):
the command's name, and its formatted description followed by the alias list. -/
structure EmbedField where
  name : String
  value : String
deriving DecidableEq, Repr

/-- The field built for one command by the help script. -/
def commandField (c : Command) : EmbedField :=
  { name := c.name
    value := handleDescription c.description
      ++ "\nCommandes: [``" ++ joinComma c.«alias» ++ "``]" }

/-- The one-argument branch of the help script (src/unnamed/part_000:26-36):
look the token up; on `undefined` return without output (the
`command.length && command.length === 0` disjunct is always falsy on a found
command object, so the guard reduces to `!command`); otherwise build exactly
one field for the found command.  The returned list is everything the branch
displays/sends. -/
def helpOne (reg : List Command) (tok : String) : List EmbedField :=
  match findCmd reg tok with
  | none => []
  | some c => [commandField c]

/-- Modelled from the spec: `Commands.js` (`regroup`) is not under `src/`.
One step of the spec's single pass: append the command to its group if the
group already exists, otherwise "start a new group on first occurrence" at
the end.  Groups are an ordered association list (JS object with string keys
preserves insertion order). -/
def insertGroup : List (String × List Command) → Command → List (String × List Command)
  | [], c => [(c.group, [c])]
  | p :: rest, c =>
    if p.1 == c.group then (p.1, p.2 ++ [c]) :: rest else p :: insertGroup rest c

/-- Modelled from the spec: `regroup()` "produces a mapping from group name to
ordered sequence of Command, built by a single pass over the registry in
insertion order". -/
def regroup (reg : List Command) : List (String × List Command) :=
  reg.foldl insertGroup []

/-- Reading a group out of the mapping: the first entry with that key, or the
empty sequence when the group is absent. -/
def lookupGroupD (gs : List (String × List Command)) (g : String) : List Command :=
  match gs.find? (fun p => p.1 == g) with
  | some p => p.2
  | none => []

/-! ## Spec-side definitions (the spec's words, for comparison) -/

/-- The spec's words for `findByAlias(token)`: "the first Command whose alias
set contains `token` (exact, case-sensitive match)". -/
def findByAliasSpec (reg : List Command) (tok : String) : Option Command :=
  reg.find? (fun c => c.«alias».contains tok)

/-- The spec's words for sequence descriptions: "join with line breaks". -/
def joinedWithLineBreaks (l : List String) : String :=
  String.intercalate "\n" l

/-- What `handleDescription` actually produces on a sequence: each element
with its commas removed and a line break appended, concatenated in order. -/
def seqRendered : List String → String
  | [] => ""
  | d :: rest => (removeCommas d ++ "\n") ++ seqRendered rest

/-! ## Lifecycle lemmas -/

theorem modulesInit_ok_iff (ms : List BotModule) (i : Nat) :
    (modulesInit ms i).2 = Except.ok () ↔ ∀ m ∈ ms, m.initRes = Except.ok () := by
  induction ms generalizing i with
  | nil => simp [modulesInit]
  | cons m rest ih =>
    cases hm : m.initRes with
    | error e => simp [modulesInit, hm]
    | ok u => cases u; simp [modulesInit, hm, ih (i + 1)]

theorem modulesStart_ok_iff (ms : List BotModule) (i : Nat) :
    (modulesStart ms i).2 = Except.ok () ↔ ∀ m ∈ ms, m.startRes = Except.ok () := by
  induction ms generalizing i with
  | nil => simp [modulesStart]
  | cons m rest ih =>
    cases hm : m.startRes with
    | error e => simp [modulesStart, hm]
    | ok u => cases u; simp [modulesStart, hm, ih (i + 1)]

theorem modulesInit_ok_trace (ms : List BotModule) (i : Nat)
    (h : ∀ m ∈ ms, m.initRes = Except.ok ()) :
    (modulesInit ms i).1 = (List.range ms.length).map (fun k => Event.modInit (i + k)) := by
  induction ms generalizing i with
  | nil => simp [modulesInit]
  | cons m rest ih =>
    have hm : m.initRes = Except.ok () := h m (by simp)
    have hr : ∀ m2 ∈ rest, m2.initRes = Except.ok () := fun m2 hm2 => h m2 (by simp [hm2])
    have hfun : ((fun k => Event.modInit (i + k)) ∘ Nat.succ)
        = fun k => Event.modInit (i + 1 + k) := by
      funext k
      simp only [Function.comp]
      congr 1
      omega
    simp only [modulesInit, hm, ih (i + 1) hr, List.length_cons,
      List.range_succ_eq_map, List.map_cons, List.map_map, hfun, Nat.add_zero]

theorem modulesStart_ok_trace (ms : List BotModule) (i : Nat)
    (h : ∀ m ∈ ms, m.startRes = Except.ok ()) :
    (modulesStart ms i).1 = (List.range ms.length).map (fun k => Event.modStart (i + k)) := by
  induction ms generalizing i with
  | nil => simp [modulesStart]
  | cons m rest ih =>
    have hm : m.startRes = Except.ok () := h m (by simp)
    have hr : ∀ m2 ∈ rest, m2.startRes = Except.ok () := fun m2 hm2 => h m2 (by simp [hm2])
    have hfun : ((fun k => Event.modStart (i + k)) ∘ Nat.succ)
        = fun k => Event.modStart (i + 1 + k) := by
      funext k
      simp only [Function.comp]
      congr 1
      omega
    simp only [modulesStart, hm, ih (i + 1) hr, List.length_cons,
      List.range_succ_eq_map, List.map_cons, List.map_map, hfun, Nat.add_zero]

theorem modulesInit_mem (ms : List BotModule) (i : Nat) (e : Event)
    (he : e ∈ (modulesInit ms i).1) : ∃ k, e = Event.modInit k := by
  induction ms generalizing i with
  | nil => simp [modulesInit] at he
  | cons m rest ih =>
    cases hm : m.initRes with
    | error e2 =>
      simp [modulesInit, hm] at he
      exact ⟨i, he⟩
    | ok u =>
      cases u
      simp only [modulesInit, hm, List.mem_cons] at he
      rcases he with he | he
      · exact ⟨i, he⟩
      · exact ih (i + 1) he

theorem modulesStart_mem (ms : List BotModule) (i : Nat) (e : Event)
    (he : e ∈ (modulesStart ms i).1) : ∃ k, e = Event.modStart k := by
  induction ms generalizing i with
  | nil => simp [modulesStart] at he
  | cons m rest ih =>
    cases hm : m.startRes with
    | error e2 =>
      simp [modulesStart, hm] at he
      exact ⟨i, he⟩
    | ok u =>
      cases u
      simp only [modulesStart, hm, List.mem_cons] at he
      rcases he with he | he
      · exact ⟨i, he⟩
      · exact ih (i + 1) he

theorem modulesInit_ok_mem (ms : List BotModule)
    (h : (modulesInit ms 0).2 = Except.ok ()) (i : Nat) (hi : i < ms.length) :
    Event.modInit i ∈ (modulesInit ms 0).1 := by
  rw [modulesInit_ok_trace ms 0 ((modulesInit_ok_iff ms 0).mp h)]
  refine List.mem_map.mpr ⟨i, List.mem_range.mpr hi, ?_⟩
  simp

theorem connect_mem (d : Option String) (r : Except Err Unit) (e : Event)
    (he : e ∈ (connect d r).1) : e = Event.dbConnect := by
  unfold connect at he
  split at he <;> simp at he
  exact he

theorem connect_not_configured (d : Option String) (r : Except Err Unit)
    (h : dbConfigured d = false) : connect d r = ([], Except.ok ()) := by
  simp [connect, h]

theorem connect_configured (d : Option String) (r : Except Err Unit)
    (h : dbConfigured d = true) : connect d r = ([Event.dbConnect], r) := by
  simp [connect, h]

/-- The four possible runs of `login`, each with its guard and its outcome. -/
theorem login_cases (d : Option String) (r : Except Err Unit)
    (ms : List BotModule) (a : Except Err String) :
    (∃ e, (connect d r).2 = Except.error e
      ∧ login d r ms a = ((connect d r).1, Except.error e))
    ∨ ((connect d r).2 = Except.ok () ∧ ∃ e, (modulesInit ms 0).2 = Except.error e
      ∧ login d r ms a = ((connect d r).1 ++ (modulesInit ms 0).1, Except.error e))
    ∨ ((connect d r).2 = Except.ok () ∧ (modulesInit ms 0).2 = Except.ok ()
      ∧ ∃ e, (modulesStart ms 0).2 = Except.error e
      ∧ login d r ms a
          = ((connect d r).1 ++ (modulesInit ms 0).1 ++ (modulesStart ms 0).1,
             Except.error e))
    ∨ ((connect d r).2 = Except.ok () ∧ (modulesInit ms 0).2 = Except.ok ()
      ∧ (modulesStart ms 0).2 = Except.ok ()
      ∧ login d r ms a
          = ((connect d r).1 ++ (modulesInit ms 0).1 ++ (modulesStart ms 0).1
               ++ [Event.auth], a)) := by
  cases hc : (connect d r).2 with
  | error e => exact Or.inl ⟨e, rfl, by simp [login, hc]⟩
  | ok u =>
    cases u
    cases hi : (modulesInit ms 0).2 with
    | error e => exact Or.inr (Or.inl ⟨rfl, e, rfl, by simp [login, hc, hi]⟩)
    | ok u =>
      cases u
      cases hs : (modulesStart ms 0).2 with
      | error e =>
        exact Or.inr (Or.inr (Or.inl ⟨rfl, rfl, e, rfl, by simp [login, hc, hi, hs]⟩))
      | ok u =>
        cases u
        exact Or.inr (Or.inr (Or.inr ⟨rfl, rfl, rfl, by simp [login, hc, hi, hs]⟩))

theorem not_modStart_pre (d : Option String) (r : Except Err Unit)
    (ms : List BotModule) (j : Nat) :
    Event.modStart j ∉ (connect d r).1 ++ (modulesInit ms 0).1 := by
  intro h
  rcases List.mem_append.mp h with h | h
  · exact Event.noConfusion (connect_mem d r _ h)
  · rcases modulesInit_mem ms 0 _ h with ⟨k, hk⟩
    exact Event.noConfusion hk

/-! ## Claim theorems: login lifecycle -/

/-- C1: every invocation of `login` runs database connect (only if
configured), then every module's init, then every module's start, then the
transport authentication, in this fixed order, each step completing before
the next begins; the transport's result is returned to the caller.  (Stated
on a run in which every step succeeds, so that all four phases occur; the
trace lists them in execution order.) -/
theorem login_runs_steps_in_order (dbname : Option String) (dbRes : Except Err Unit)
    (ms : List BotModule) (authRes : Except Err String)
    (hdb : dbConfigured dbname = true → dbRes = Except.ok ())
    (hinit : ∀ m ∈ ms, m.initRes = Except.ok ())
    (hstart : ∀ m ∈ ms, m.startRes = Except.ok ()) :
    login dbname dbRes ms authRes =
      ((if dbConfigured dbname then [Event.dbConnect] else [])
        ++ (List.range ms.length).map Event.modInit
        ++ (List.range ms.length).map Event.modStart
        ++ [Event.auth],
       authRes) := by
  have hc2 : (connect dbname dbRes).2 = Except.ok () := by
    cases h : dbConfigured dbname
    · simp [connect, h]
    · simp [connect, h, hdb h]
  have hc1 : (connect dbname dbRes).1
      = (if dbConfigured dbname then [Event.dbConnect] else []) := by
    cases h : dbConfigured dbname <;> simp [connect, h]
  have hi2 : (modulesInit ms 0).2 = Except.ok () := (modulesInit_ok_iff ms 0).mpr hinit
  have hs2 : (modulesStart ms 0).2 = Except.ok () := (modulesStart_ok_iff ms 0).mpr hstart
  have hi1 : (modulesInit ms 0).1 = (List.range ms.length).map Event.modInit := by
    rw [modulesInit_ok_trace ms 0 hinit]
    simp
  have hs1 : (modulesStart ms 0).1 = (List.range ms.length).map Event.modStart := by
    rw [modulesStart_ok_trace ms 0 hstart]
    simp
  simp [login, hc2, hi2, hs2, hc1, hi1, hs1]

/-- Witness for C1 at a concrete input: a configured database, one module
whose hooks succeed, a successful authentication. -/
theorem login_runs_steps_in_order_witness :
    login (some "db") (Except.ok ())
        [{ initRes := Except.ok (), startRes := Except.ok () }] (Except.ok "tok")
      = ([Event.dbConnect, Event.modInit 0, Event.modStart 0, Event.auth],
         Except.ok "tok") := by
  have h := login_runs_steps_in_order (some "db") (Except.ok ())
    [{ initRes := Except.ok (), startRes := Except.ok () }] (Except.ok "tok")
    (fun _ => rfl)
    (by intro m hm; rw [List.mem_singleton] at hm; rw [hm])
    (by intro m hm; rw [List.mem_singleton] at hm; rw [hm])
  exact h.trans rfl

/-- C2: if some module's init hook rejects, no module's start hook is ever
invoked during that run of `login`; and in every run, the trace splits into a
segment with no start events followed by a segment with no init events, where
a start event in the second segment implies every module's init event already
occurred in the first. -/
theorem no_start_before_init (dbname : Option String) (dbRes : Except Err Unit)
    (ms : List BotModule) (authRes : Except Err String) :
    ((∃ m ∈ ms, m.initRes ≠ Except.ok ()) →
        ∀ j, Event.modStart j ∉ (login dbname dbRes ms authRes).1)
    ∧ (∃ pre post, (login dbname dbRes ms authRes).1 = pre ++ post
        ∧ (∀ j, Event.modStart j ∉ pre)
        ∧ (∀ i, Event.modInit i ∉ post)
        ∧ ((∃ j, Event.modStart j ∈ post) →
            ∀ i < ms.length, Event.modInit i ∈ pre)) := by
  rcases login_cases dbname dbRes ms authRes with
    ⟨e, hce, hl⟩ | ⟨hc, e, hie, hl⟩ | ⟨hc, hi, e, hse, hl⟩ | ⟨hc, hi, hs, hl⟩
  · constructor
    · intro _ j hmem
      rw [hl] at hmem
      exact Event.noConfusion (connect_mem dbname dbRes _ hmem)
    · refine ⟨(connect dbname dbRes).1, [], by rw [hl]; simp, ?_, by simp, by simp⟩
      intro j hmem
      exact Event.noConfusion (connect_mem dbname dbRes _ hmem)
  · constructor
    · intro _ j hmem
      rw [hl] at hmem
      exact not_modStart_pre dbname dbRes ms j hmem
    · exact ⟨(connect dbname dbRes).1 ++ (modulesInit ms 0).1, [],
        by rw [hl]; simp, fun j => not_modStart_pre dbname dbRes ms j, by simp, by simp⟩
  · constructor
    · rintro ⟨m, hm, hne⟩ j
      exact absurd ((modulesInit_ok_iff ms 0).mp hi m hm) hne
    · refine ⟨(connect dbname dbRes).1 ++ (modulesInit ms 0).1, (modulesStart ms 0).1,
        by rw [hl], fun j => not_modStart_pre dbname dbRes ms j, ?_, ?_⟩
      · intro i hmem
        rcases modulesStart_mem ms 0 _ hmem with ⟨k, hk⟩
        exact Event.noConfusion hk
      · intro _ i hlen
        exact List.mem_append.mpr (Or.inr (modulesInit_ok_mem ms hi i hlen))
  · constructor
    · rintro ⟨m, hm, hne⟩ j
      exact absurd ((modulesInit_ok_iff ms 0).mp hi m hm) hne
    · refine ⟨(connect dbname dbRes).1 ++ (modulesInit ms 0).1,
        (modulesStart ms 0).1 ++ [Event.auth],
        by rw [hl]; simp, fun j => not_modStart_pre dbname dbRes ms j, ?_, ?_⟩
      · intro i hmem
        rcases List.mem_append.mp hmem with hmem | hmem
        · rcases modulesStart_mem ms 0 _ hmem with ⟨k, hk⟩
          exact Event.noConfusion hk
        · simp at hmem
      · intro _ i hlen
        exact List.mem_append.mpr (Or.inr (modulesInit_ok_mem ms hi i hlen))

/-- C4: with no database name configured, `login` performs no database
connection attempt at all and its trace starts directly with the module
initialization events. -/
theorem unconfigured_db_skips_to_init (dbname : Option String)
    (dbRes : Except Err Unit) (ms : List BotModule) (authRes : Except Err String)
    (h : dbConfigured dbname = false) :
    Event.dbConnect ∉ (login dbname dbRes ms authRes).1
    ∧ ∃ rest, (login dbname dbRes ms authRes).1 = (modulesInit ms 0).1 ++ rest := by
  have hc := connect_not_configured dbname dbRes h
  have hc1 : (connect dbname dbRes).1 = [] := by rw [hc]
  have hc2 : (connect dbname dbRes).2 = Except.ok () := by rw [hc]
  rcases login_cases dbname dbRes ms authRes with
    ⟨e, hce, hl⟩ | ⟨_, e, hie, hl⟩ | ⟨_, hi, e, hse, hl⟩ | ⟨_, hi, hs, hl⟩
  · rw [hc2] at hce
    exact absurd hce (by simp)
  · constructor
    · intro hmem
      rw [hl] at hmem
      simp only [hc1, List.nil_append] at hmem
      rcases modulesInit_mem ms 0 _ hmem with ⟨k, hk⟩
      exact Event.noConfusion hk
    · exact ⟨[], by rw [hl]; simp [hc1]⟩
  · constructor
    · intro hmem
      rw [hl] at hmem
      simp only [hc1, List.nil_append] at hmem
      rcases List.mem_append.mp hmem with hmem | hmem
      · rcases modulesInit_mem ms 0 _ hmem with ⟨k, hk⟩
        exact Event.noConfusion hk
      · rcases modulesStart_mem ms 0 _ hmem with ⟨k, hk⟩
        exact Event.noConfusion hk
    · exact ⟨(modulesStart ms 0).1, by rw [hl]; simp [hc1]⟩
  · constructor
    · intro hmem
      rw [hl] at hmem
      simp only [hc1, List.nil_append] at hmem
      rcases List.mem_append.mp hmem with hmem | hmem
      · rcases List.mem_append.mp hmem with hmem | hmem
        · rcases modulesInit_mem ms 0 _ hmem with ⟨k, hk⟩
          exact Event.noConfusion hk
        · rcases modulesStart_mem ms 0 _ hmem with ⟨k, hk⟩
          exact Event.noConfusion hk
      · simp at hmem
    · exact ⟨(modulesStart ms 0).1 ++ [Event.auth], by rw [hl]; simp [hc1]⟩

/-- Witness for C4: no database name, one module. -/
theorem unconfigured_db_skips_to_init_witness :
    Event.dbConnect ∉ (login none (Except.ok ())
        [{ initRes := Except.ok (), startRes := Except.ok () }] (Except.ok "tok")).1
    ∧ ∃ rest, (login none (Except.ok ())
        [{ initRes := Except.ok (), startRes := Except.ok () }] (Except.ok "tok")).1
      = (modulesInit [{ initRes := Except.ok (), startRes := Except.ok () }] 0).1 ++ rest :=
  unconfigured_db_skips_to_init none (Except.ok ())
    [{ initRes := Except.ok (), startRes := Except.ok () }] (Except.ok "tok") rfl

/-- C5: with a configured database whose connection fails, `login` re-throws
that error to its caller and no module's init hook is invoked. -/
theorem db_error_rethrown_no_init (dbname : Option String) (ms : List BotModule)
    (authRes : Except Err String) (e : Err)
    (hcfg : dbConfigured dbname = true) :
    login dbname (Except.error e) ms authRes = ([Event.dbConnect], Except.error e)
    ∧ ∀ i, Event.modInit i ∉ (login dbname (Except.error e) ms authRes).1 := by
  have hc := connect_configured dbname (Except.error e) hcfg
  have h1 : login dbname (Except.error e) ms authRes
      = ([Event.dbConnect], Except.error e) := by
    have hc2 : (connect dbname (Except.error e)).2 = Except.error e := by rw [hc]
    have hc1 : (connect dbname (Except.error e)).1 = [Event.dbConnect] := by rw [hc]
    simp [login, hc2, hc1]
  refine ⟨h1, ?_⟩
  intro i hmem
  rw [h1] at hmem
  simp at hmem

/-- Witness for C5: database "db", connection error "boom". -/
theorem db_error_rethrown_no_init_witness :
    login (some "db") (Except.error "boom") [] (Except.ok "tok")
      = ([Event.dbConnect], Except.error "boom")
    ∧ ∀ i, Event.modInit i ∉ (login (some "db") (Except.error "boom") [] (Except.ok "tok")).1 :=
  db_error_rethrown_no_init (some "db") [] (Except.ok "tok") "boom" rfl

/-! ## Lookup lemmas -/

theorem truthy_aliasMatch_empty (c : Command) : truthyStr (aliasMatch c "") = false := by
  unfold aliasMatch
  cases hf : c.«alias».find? (fun a => "" == a) with
  | none => simp [truthyStr, hf]
  | some a =>
    have hp : ("" == a) = true := List.find?_some hf
    have ha : a = "" := (eq_of_beq hp).symm
    simp [truthyStr, ha]

theorem findCmd_empty_none (reg : List Command) : findCmd reg "" = none := by
  unfold findCmd
  apply List.find?_eq_none.mpr
  intro c _
  simp [truthy_aliasMatch_empty c]

theorem truthy_aliasMatch_nonempty (c : Command) (tok : String) (h : tok ≠ "") :
    truthyStr (aliasMatch c tok) = c.«alias».contains tok := by
  unfold aliasMatch
  cases hf : c.«alias».find? (fun a => tok == a) with
  | none =>
    have hno : ∀ a ∈ c.«alias», ¬ (tok == a) = true := List.find?_eq_none.mp hf
    have : tok ∉ c.«alias» := fun hm => hno tok hm (by simp)
    simp [truthyStr, this]
  | some a =>
    have hp : (tok == a) = true := List.find?_some hf
    have ha : a = tok := (eq_of_beq hp).symm
    have hm : a ∈ c.«alias» := List.mem_of_find?_eq_some hf
    rw [ha] at hm
    have h1 : truthyStr (some a) = true := by simp [truthyStr, ha, h]
    have h2 : c.«alias».contains tok = true := by simpa using hm
    rw [h1, h2]

theorem findCmd_eq_spec (reg : List Command) (tok : String) (h : tok ≠ "") :
    findCmd reg tok = findByAliasSpec reg tok := by
  unfold findCmd findByAliasSpec
  congr 1
  funext c
  exact truthy_aliasMatch_nonempty c tok h

theorem findCmd_none_iff (reg : List Command) (tok : String) (h : tok ≠ "") :
    findCmd reg tok = none ↔ ∀ c ∈ reg, tok ∉ c.«alias» := by
  rw [findCmd_eq_spec reg tok h]
  unfold findByAliasSpec
  rw [List.find?_eq_none]
  constructor
  · intro hno c hc hm
    exact hno c hc (by simpa using hm)
  · intro hno c hc hcont
    exact hno c hc (by simpa using hcont)

/-! ## Claim theorems: lookup, help, error routing -/

/-- A registry entry whose alias list contains the empty string — the
configuration on which the code's lookup diverges from alias containment. -/
def cmdEmptyAlias : Command :=
  { name := "X", «alias» := [""], description := Desc.other, group := "g" }

/-- C3 counterexample: with a registered command whose alias list contains
the empty string, looking up the empty-string token returns nothing, although
the claim (first command whose alias list contains the token) requires that
command to be returned. -/
theorem findByAlias_claim_counterexample :
    cmdEmptyAlias.«alias».contains "" = true
    ∧ findByAliasSpec [cmdEmptyAlias] "" = some cmdEmptyAlias
    ∧ findCmd [cmdEmptyAlias] "" = none := by
  refine ⟨rfl, rfl, ?_⟩
  exact findCmd_empty_none [cmdEmptyAlias]

/-- C3 (amended): for every non-empty token, the lookup returns the first
registered command whose alias list contains the token (exact, case-sensitive
equality; first registrant wins), and reports not-found exactly when no
registered command carries the token; the empty-string token always reports
not-found. -/
theorem findByAlias_first_match (reg : List Command) (tok : String) :
    (tok ≠ "" →
      findCmd reg tok = findByAliasSpec reg tok
      ∧ (findCmd reg tok = none ↔ ∀ c ∈ reg, tok ∉ c.«alias»))
    ∧ findCmd reg "" = none :=
  ⟨fun h => ⟨findCmd_eq_spec reg tok h, findCmd_none_iff reg tok h⟩,
   findCmd_empty_none reg⟩

/-- C10: the per-command alias test returns the matched alias itself, and the
empty string is falsy, so a command carrying the empty-string alias is
skipped: looking up the empty-string token reports not-found even though a
registered command's alias list contains it. -/
theorem empty_alias_lookup_not_found (reg : List Command) (c : Command)
    (_hc : c ∈ reg) (ha : "" ∈ c.«alias») :
    c.«alias».contains "" = true
    ∧ truthyStr (aliasMatch c "") = false
    ∧ findCmd reg "" = none :=
  ⟨by simpa using ha, truthy_aliasMatch_empty c, findCmd_empty_none reg⟩

/-- Witness for C10 at the concrete registry `[cmdEmptyAlias]`. -/
theorem empty_alias_lookup_not_found_witness :
    cmdEmptyAlias.«alias».contains "" = true
    ∧ truthyStr (aliasMatch cmdEmptyAlias "") = false
    ∧ findCmd [cmdEmptyAlias] "" = none :=
  empty_alias_lookup_not_found [cmdEmptyAlias] cmdEmptyAlias
    (List.mem_singleton.mpr rfl) (by simp [cmdEmptyAlias])

/-- C8 counterexample: invoked with the empty-string token while a registered
command's alias list contains the empty string, the handler builds no display
unit although the token matches that command's alias list — against the
claim's "when the token matches, it builds exactly one display unit". -/
theorem helpOne_claim_counterexample :
    cmdEmptyAlias.«alias».contains "" = true
    ∧ helpOne [cmdEmptyAlias] "" = [] := by
  refine ⟨rfl, ?_⟩
  unfold helpOne
  rw [findCmd_empty_none]

/-- C8 (amended): for a single non-empty argument token, the handler produces
no output when no registered command's alias list carries the token, and
builds exactly one display unit (for the found command) when one does; the
empty-string token always produces no output. -/
theorem helpOne_single_arg (reg : List Command) (tok : String) :
    (tok ≠ "" →
      ((∀ c ∈ reg, tok ∉ c.«alias») → helpOne reg tok = [])
      ∧ (∀ c, findCmd reg tok = some c → helpOne reg tok = [commandField c])
      ∧ ((∃ c ∈ reg, tok ∈ c.«alias») → (helpOne reg tok).length = 1))
    ∧ helpOne reg "" = [] := by
  constructor
  · intro h
    refine ⟨?_, ?_, ?_⟩
    · intro hno
      unfold helpOne
      rw [(findCmd_none_iff reg tok h).mpr hno]
    · intro c hfound
      unfold helpOne
      rw [hfound]
    · rintro ⟨c, hc, hm⟩
      unfold helpOne
      cases hfound : findCmd reg tok with
      | none =>
        exact absurd ((findCmd_none_iff reg tok h).mp hfound c hc) (not_not_intro hm)
      | some c2 => rfl
  · unfold helpOne
    rw [findCmd_empty_none]

/-- C9: an error raised by a command handler's outbound send is caught at the
dispatch boundary and routed to the bot-wide `error` event rather than
propagating; `handleError` emits whenever an emitter is available and throws
only when none exists. -/
theorem handler_errors_routed (e : Err) :
    sendAndCatch true (Except.error e) = Except.ok (some ("error", e))
    ∧ handleError true e = Except.ok ("error", e)
    ∧ ∀ b : Bool, (∃ e2, handleError b e = Except.error e2) ↔ b = false := by
  refine ⟨rfl, rfl, ?_⟩
  intro b
  cases b <;> simp [handleError]

/-! ## Description formatting lemmas -/

theorem removeCommas_append (a b : String) :
    removeCommas (a ++ b) = removeCommas a ++ removeCommas b := by
  cases a with
  | mk da =>
    cases b with
    | mk db =>
      show String.mk ((da ++ db).filter _) = _
      rw [List.filter_append]
      rfl

theorem removeCommas_comma : removeCommas "," = "" := rfl

theorem removeCommas_newline : removeCommas "\n" = "\n" := rfl

theorem removeCommas_joinComma (l : List String) :
    removeCommas (joinComma (l.map (fun d => d ++ "\n"))) = seqRendered l := by
  induction l with
  | nil => rfl
  | cons d rest ih =>
    cases rest with
    | nil =>
      simp only [List.map_cons, List.map_nil, joinComma, seqRendered]
      rw [removeCommas_append, removeCommas_newline]
      simp
    | cons d2 rest2 =>
      simp only [List.map_cons, joinComma, seqRendered] at ih ⊢
      rw [removeCommas_append, removeCommas_append, removeCommas_comma,
        removeCommas_append, removeCommas_newline, ih]
      simp

/-- C7 counterexample: on the sequence `["a,b"]` the code produces `"ab\n"`
(commas stripped, trailing line break), not the elements joined with line
breaks, which would be `"a,b"`. -/
theorem handleDescription_claim_counterexample :
    handleDescription (Desc.seq ["a,b"]) = "ab\n"
    ∧ joinedWithLineBreaks ["a,b"] = "a,b"
    ∧ ("ab\n" : String) ≠ "a,b" := by
  refine ⟨?_, ?_, ?_⟩ <;> decide

/-- C7 (amended): a string description is returned unchanged; a sequence of
strings is rendered as the concatenation of its elements, each with every
comma removed and a line break appended (so with a trailing line break);
anything else becomes the fixed "unavailable" placeholder. -/
theorem handleDescription_cases (s : String) (l : List String) :
    handleDescription (Desc.str s) = s
    ∧ handleDescription (Desc.seq l) = seqRendered l
    ∧ handleDescription Desc.other = unavailableDesc :=
  ⟨rfl, removeCommas_joinComma l, rfl⟩

/-! ## Regroup lemmas -/

theorem lookupGroupD_insertGroup (acc : List (String × List Command))
    (c : Command) (g : String) :
    lookupGroupD (insertGroup acc c) g
      = lookupGroupD acc g ++ (if c.group == g then [c] else []) := by
  induction acc with
  | nil =>
    cases h : c.group == g <;> simp [insertGroup, lookupGroupD, h]
  | cons p rest ih =>
    cases hp : p.1 == c.group with
    | true =>
      have hpc : p.1 = c.group := eq_of_beq hp
      cases hg : p.1 == g with
      | true =>
        have hcg : (c.group == g) = true := by rw [← hpc]; exact hg
        simp [insertGroup, hp, lookupGroupD, List.find?_cons, hg, hcg]
      | false =>
        have hcg : (c.group == g) = false := by rw [← hpc]; exact hg
        simp [insertGroup, hp, lookupGroupD, List.find?_cons, hg, hcg]
    | false =>
      cases hg : p.1 == g with
      | true =>
        have hcg : (c.group == g) = false := by
          cases hcg : c.group == g with
          | false => rfl
          | true =>
            have h1 : p.1 = g := eq_of_beq hg
            have h2 : c.group = g := eq_of_beq hcg
            rw [h1.trans h2.symm] at hp
            rw [beq_self_eq_true] at hp
            exact hp
        simp [insertGroup, hp, lookupGroupD, List.find?_cons, hg, hcg]
      | false =>
        have := ih
        simp only [insertGroup, hp, Bool.false_eq_true, if_false, lookupGroupD,
          List.find?_cons, hg] at this ⊢
        exact this

theorem lookupGroupD_foldl (l : List Command) (acc : List (String × List Command))
    (g : String) :
    lookupGroupD (l.foldl insertGroup acc) g
      = lookupGroupD acc g ++ l.filter (fun c => c.group == g) := by
  induction l generalizing acc with
  | nil => simp
  | cons c rest ih =>
    rw [List.foldl_cons, ih (insertGroup acc c), lookupGroupD_insertGroup]
    cases h : c.group == g with
    | true => simp [List.filter_cons, h]
    | false => simp [List.filter_cons, h]

theorem lookupGroupD_regroup (reg : List Command) (g : String) :
    lookupGroupD (regroup reg) g = reg.filter (fun c => c.group == g) := by
  rw [regroup, lookupGroupD_foldl]
  simp [lookupGroupD]

theorem keys_insertGroup (acc : List (String × List Command)) (c : Command) :
    (insertGroup acc c).map Prod.fst
      = if c.group ∈ acc.map Prod.fst then acc.map Prod.fst
        else acc.map Prod.fst ++ [c.group] := by
  induction acc with
  | nil => simp [insertGroup]
  | cons p rest ih =>
    by_cases hp : p.1 = c.group
    · have hb : (p.1 == c.group) = true := beq_iff_eq.mpr hp
      simp only [insertGroup, hb, if_true, List.map_cons]
      rw [if_pos (List.mem_cons.mpr (Or.inl hp.symm))]
    · have hb : (p.1 == c.group) = false := by simp [hp]
      simp only [insertGroup, hb, Bool.false_eq_true, if_false, List.map_cons, ih]
      by_cases hr : c.group ∈ rest.map Prod.fst
      · rw [if_pos hr, if_pos (List.mem_cons.mpr (Or.inr hr))]
      · have hnm : c.group ∉ p.1 :: rest.map Prod.fst := by
          intro hm
          rcases List.mem_cons.mp hm with hm | hm
          · exact hp hm.symm
          · exact hr hm
        rw [if_neg hr, if_neg hnm, List.cons_append]

theorem keys_nodup_regroup (reg : List Command) :
    ((regroup reg).map Prod.fst).Nodup := by
  suffices h : ∀ (l : List Command) (acc : List (String × List Command)),
      (acc.map Prod.fst).Nodup → ((l.foldl insertGroup acc).map Prod.fst).Nodup by
    exact h reg [] (by simp)
  intro l
  induction l with
  | nil => intro acc h; simpa using h
  | cons c rest ih =>
    intro acc h
    rw [List.foldl_cons]
    apply ih
    rw [keys_insertGroup]
    by_cases hc : c.group ∈ acc.map Prod.fst
    · simpa [hc] using h
    · rw [if_neg hc]
      simp [List.nodup_append, h, hc]

theorem join_insertGroup (acc : List (String × List Command)) (c : Command) :
    List.Perm (((insertGroup acc c).map Prod.snd).flatten)
      ((acc.map Prod.snd).flatten ++ [c]) := by
  induction acc with
  | nil => simp [insertGroup]
  | cons p rest ih =>
    cases hp : p.1 == c.group with
    | true =>
      simp only [insertGroup, hp, if_true, List.map_cons, List.flatten_cons]
      rw [List.append_assoc, List.append_assoc]
      exact List.Perm.append_left _ List.perm_append_comm
    | false =>
      simp only [insertGroup, hp, Bool.false_eq_true, if_false, List.map_cons,
        List.flatten_cons]
      rw [List.append_assoc]
      exact List.Perm.append_left _ ih

theorem join_regroup_perm (reg : List Command) :
    List.Perm (((regroup reg).map Prod.snd).flatten) reg := by
  suffices h : ∀ (l : List Command) (acc : List (String × List Command)),
      List.Perm (((l.foldl insertGroup acc).map Prod.snd).flatten)
        ((acc.map Prod.snd).flatten ++ l) by
    simpa using h reg []
  intro l
  induction l with
  | nil =>
    intro acc
    simp
  | cons c rest ih =>
    intro acc
    rw [List.foldl_cons]
    refine (ih (insertGroup acc c)).trans ?_
    refine (List.Perm.append_right rest (join_insertGroup acc c)).trans ?_
    rw [List.append_assoc]
    exact List.Perm.refl _

/-- C6: regrouping is an exact partition of the registry: reading any group
out of the mapping yields precisely the registered commands carrying that
group name in registration order, group names are pairwise distinct (so every
command lands in exactly one group, its own), and the concatenation of all
groups is a permutation of the full registry. -/
theorem regroup_exact_partition (reg : List Command) :
    (∀ g, lookupGroupD (regroup reg) g = reg.filter (fun c => c.group == g))
    ∧ ((regroup reg).map Prod.fst).Nodup
    ∧ List.Perm (((regroup reg).map Prod.snd).flatten) reg :=
  ⟨fun g => lookupGroupD_regroup reg g, keys_nodup_regroup reg, join_regroup_perm reg⟩

end DiscordBot
